import Mathlib

/-!
Verification of the ResignIPA resigning pipeline (`pkg/resigner/resigner.go`)
against its specification.

The Go code is embedded shallowly:
* file-system trees are the inductive `FSTree`; children are stored in the
  lexical order that `os.ReadDir`/`filepath.Walk` yields them;
* paths are lists of path segments (Go joins them with `/`);
* external invocations (`security`, `PlistBuddy`, `codesign`) and fallible
  file-system operations are oracles collected in an `Env` record, and each
  invocation is recorded in an event trace;
* Go's `error` results become `Option String` / `Except String`.
-/

set_option maxHeartbeats 1000000
set_option linter.unnecessarySeqFocus false

namespace ResignModel

/-! ## Path extensions (Go `filepath.Ext`) -/

/-- Characters of the extension of one path element: the suffix starting at
the last dot, or `[]` when there is no dot.  This is Go's `filepath.Ext`
restricted to a single path segment. -/
def extChars : List Char → List Char
  | [] => []
  | c :: cs =>
    let r := extChars cs
    if r.isEmpty then (if c = '.' then c :: cs else []) else r

/-- `filepath.Ext` of a single file name. -/
def extOfName (s : String) : String := ⟨extChars s.data⟩

/-- Extension of a segment-list path: `filepath.Ext` looks only at the last
path element. -/
def extL (p : List String) : String := extOfName (p.getLastD "")

/-- Go `strings.ToLower` (ASCII-faithful; the pipeline only compares against
ASCII literals `".ipa"`/`".app"`). -/
def lowerStr (s : String) : String := ⟨s.data.map Char.toLower⟩

/-- Split a character list at every `/` (the segments of a path string). -/
def splitSlash : List Char → List (List Char)
  | [] => [[]]
  | c :: cs =>
    match splitSlash cs with
    | [] => [[c]]
    | g :: gs => if c = '/' then [] :: g :: gs else (c :: g) :: gs

/-- `filepath.Ext` on a full slash-separated path string: the extension of
the last path element. -/
def extOfPathStr (s : String) : String := extOfName ⟨(splitSlash s.data).getLastD []⟩

/-! ## File-system trees -/

/-- A file-system node: a regular file with contents, or a directory with an
ordered list of children (lexical `ReadDir` order). -/
inductive FSTree where
  | file (name : String) (content : String)
  | dir (name : String) (children : List FSTree)

/-- Name of a node. -/
def fsName : FSTree → String
  | .file n _ => n
  | .dir n _ => n

/-! ## Component discovery (`findComponents`, resigner.go:498-543) -/

/-- Directory extensions collected by the walk callback
(resigner.go:508-511). -/
def isCompDir (n : String) : Bool :=
  extOfName n == ".app" || extOfName n == ".appex" || extOfName n == ".framework"

mutual

/-- The `filepath.Walk` of `findComponents` (resigner.go:502-520): visit a
node whose parent path is `base`, collecting `.app`/`.appex`/`.framework`
directories and `.dylib` files, in walk (pre-)order. -/
def walkNode (base : List String) : FSTree → List (List String)
  | .file n _ => if extOfName n == ".dylib" then [base ++ [n]] else []
  | .dir n cs =>
    (if isCompDir n then [base ++ [n]] else []) ++ walkList (base ++ [n]) cs

/-- Walk of a list of sibling nodes. -/
def walkList (base : List String) : List FSTree → List (List String)
  | [] => []
  | t :: ts => walkNode base t ++ walkList base ts

end

/-- `findComponents` (resigner.go:498-543): walk the tree rooted at the
application path (whose parent path is `base`), then partition so that the
`.app` components come last (lines 526-542). -/
def findComponents (base : List String) (t : FSTree) : List (List String) :=
  let components := walkNode base t
  let appComponents := components.filter (fun c => extL c == ".app")
  let nonAppComponents := components.filter (fun c => !(extL c == ".app"))
  nonAppComponents ++ appComponents

/-! ## Counting bundle kinds in a tree -/

mutual

/-- Count the nodes of a tree matching a directory-name predicate `p` or a
file-name predicate `q`. -/
def countNode (p q : String → Bool) : FSTree → Nat
  | .file n _ => if q n then 1 else 0
  | .dir n cs => (if p n then 1 else 0) + countList p q cs

/-- `countNode` over a list of sibling nodes. -/
def countList (p q : String → Bool) : List FSTree → Nat
  | [] => 0
  | t :: ts => countNode p q t + countList p q ts

end

/-- The always-false name predicate. -/
def noName : String → Bool := fun _ => false

/-- Number of `.app` directories in a tree (the primary bundle plus nested
application bundles). -/
def countApp (t : FSTree) : Nat := countNode (fun n => extOfName n == ".app") noName t

/-- Number of `.appex` extension bundles. -/
def countAppex (t : FSTree) : Nat := countNode (fun n => extOfName n == ".appex") noName t

/-- Number of `.framework` bundles. -/
def countFramework (t : FSTree) : Nat :=
  countNode (fun n => extOfName n == ".framework") noName t

/-- Number of `.dylib` files. -/
def countDylib (t : FSTree) : Nat := countNode noName (fun n => extOfName n == ".dylib") t

/-- Number of `.app` directories strictly inside the children of the root. -/
def countNestedApps (cs : List FSTree) : Nat :=
  countList (fun n => extOfName n == ".app") noName cs

/-! ## Lemmas about the walk -/

theorem getLastD_append_singleton (l : List α) (a d : α) :
    (l ++ [a]).getLastD d = a := by
  induction l with
  | nil => rfl
  | cons x xs ih =>
    cases xs with
    | nil => rfl
    | cons y ys => simpa using ih

theorem extL_append_singleton (base : List String) (n : String) :
    extL (base ++ [n]) = extOfName n := by
  simp [extL, getLastD_append_singleton]

theorem filter_partition_length (l : List α) (p : α → Bool) :
    (l.filter p).length + (l.filter (fun a => !(p a))).length = l.length := by
  induction l with
  | nil => rfl
  | cons x xs ih =>
    by_cases h : p x = true <;> simp [List.filter_cons, h] <;> omega

mutual

theorem walkNode_length (base : List String) (t : FSTree) :
    (walkNode base t).length =
      countNode isCompDir (fun n => extOfName n == ".dylib") t := by
  cases t with
  | file n c =>
    by_cases h : extOfName n == ".dylib" <;>
      simp [walkNode, countNode, h]
  | dir n cs =>
    by_cases h : isCompDir n <;>
      simp [walkNode, countNode, h, walkList_length (base ++ [n]) cs] <;> omega

theorem walkList_length (base : List String) (ts : List FSTree) :
    (walkList base ts).length =
      countList isCompDir (fun n => extOfName n == ".dylib") ts := by
  cases ts with
  | nil => rfl
  | cons t ts =>
    simp [walkList, countList, walkNode_length base t, walkList_length base ts]

end

-- Filtering the walk output by the extension of the component path counts
-- the nodes whose own name has that extension.
mutual

theorem walkNode_filter_length (base : List String) (t : FSTree) (e : String) :
    ((walkNode base t).filter (fun c => extL c == e)).length =
      countNode (fun n => isCompDir n && (extOfName n == e))
        (fun n => (extOfName n == ".dylib") && (extOfName n == e)) t := by
  cases t with
  | file n c =>
    by_cases h : extOfName n == ".dylib" <;>
      by_cases h2 : extOfName n == e <;>
        simp [walkNode, countNode, h, h2, List.filter_cons, extL_append_singleton]
  | dir n cs =>
    by_cases h : isCompDir n <;>
      by_cases h2 : extOfName n == e <;>
        simp [walkNode, countNode, h, h2, List.filter_cons, extL_append_singleton,
          walkList_filter_length (base ++ [n]) cs e] <;> omega

theorem walkList_filter_length (base : List String) (ts : List FSTree) (e : String) :
    ((walkList base ts).filter (fun c => extL c == e)).length =
      countList (fun n => isCompDir n && (extOfName n == e))
        (fun n => (extOfName n == ".dylib") && (extOfName n == e)) ts := by
  cases ts with
  | nil => rfl
  | cons t ts =>
    simp [walkList, countList, List.filter_append,
      walkNode_filter_length base t e, walkList_filter_length base ts e]

end

/-- Pointwise-equal predicates give equal counts. -/
theorem countNode_congr (p p' q q' : String → Bool)
    (hp : ∀ n, p n = p' n) (hq : ∀ n, q n = q' n) (t : FSTree) :
    countNode p q t = countNode p' q' t := by
  have hp' : p = p' := funext hp
  have hq' : q = q' := funext hq
  rw [hp', hq']

theorem countList_congr (p p' q q' : String → Bool)
    (hp : ∀ n, p n = p' n) (hq : ∀ n, q n = q' n) (ts : List FSTree) :
    countList p q ts = countList p' q' ts := by
  have hp' : p = p' := funext hp
  have hq' : q = q' := funext hq
  rw [hp', hq']

/-- The three component-directory extensions are mutually exclusive, so the
indicator of `isCompDir` is the sum of the three per-extension indicators. -/
theorem compDir_count (n : String) :
    (if isCompDir n then (1 : Nat) else 0) =
      (if extOfName n == ".appex" then 1 else 0)
      + (if extOfName n == ".framework" then 1 else 0)
      + (if extOfName n == ".app" then 1 else 0) := by
  by_cases h1 : extOfName n = ".app"
  · have b2 : (extOfName n == ".appex") = false := by rw [h1]; decide
    have b3 : (extOfName n == ".framework") = false := by rw [h1]; decide
    simp [isCompDir, h1, b2, b3]
  · by_cases h2 : extOfName n = ".appex"
    · have b3 : (extOfName n == ".framework") = false := by rw [h2]; decide
      have b1 : (extOfName n == ".app") = false := by rw [h2]; decide
      simp [isCompDir, b1, h2, b3]
    · by_cases h3 : extOfName n = ".framework"
      · have b1 : (extOfName n == ".app") = false := by rw [h3]; decide
        have b2 : (extOfName n == ".appex") = false := by rw [h3]; decide
        simp [isCompDir, b1, b2, h3]
      · have b1 : (extOfName n == ".app") = false := beq_eq_false_iff_ne.mpr h1
        have b2 : (extOfName n == ".appex") = false := beq_eq_false_iff_ne.mpr h2
        have b3 : (extOfName n == ".framework") = false := beq_eq_false_iff_ne.mpr h3
        simp [isCompDir, b1, b2, b3]

-- Splitting the walk-predicate count into the four bundle-kind counts.
mutual

theorem countNode_split (t : FSTree) :
    countNode isCompDir (fun n => extOfName n == ".dylib") t =
      countAppex t + countFramework t + countDylib t + countApp t := by
  cases t with
  | file n c =>
    by_cases h : extOfName n == ".dylib" <;>
      simp [countNode, countApp, countAppex, countFramework, countDylib, noName, h]
  | dir n cs =>
    have hc := countList_split cs
    have hn := compDir_count n
    have hz : (if noName n then (1 : Nat) else 0) = 0 := rfl
    simp only [countNode, countApp, countAppex, countFramework, countDylib] at hc hn hz ⊢
    omega

theorem countList_split (ts : List FSTree) :
    countList isCompDir (fun n => extOfName n == ".dylib") ts =
      countList (fun n => extOfName n == ".appex") noName ts
      + countList (fun n => extOfName n == ".framework") noName ts
      + countList noName (fun n => extOfName n == ".dylib") ts
      + countList (fun n => extOfName n == ".app") noName ts := by
  cases ts with
  | nil => rfl
  | cons t ts =>
    have h1 := countNode_split t
    have h2 := countList_split ts
    simp only [countList, countApp, countAppex, countFramework, countDylib] at *
    omega

end


/-- Counting `.app`-extension components in the walk output equals counting
`.app` directories in the tree. -/
theorem walkNode_filter_app (base : List String) (t : FSTree) :
    ((walkNode base t).filter (fun c => extL c == ".app")).length = countApp t := by
  rw [walkNode_filter_length base t ".app"]
  exact countNode_congr _ _ _ _
    (by
      intro n
      by_cases h : extOfName n = ".app"
      · simp [isCompDir, h]
      · simp [beq_eq_false_iff_ne.mpr h])
    (by
      intro n
      by_cases h : extOfName n = ".dylib"
      · have : (extOfName n == ".app") = false := by rw [h]; decide
        simp [this, noName]
      · simp [beq_eq_false_iff_ne.mpr h, noName])
    t

/-- C1: `findComponents` on an application bundle tree with `N` extension
bundles, `M` framework bundles and `K` dynamic libraries returns
`N + M + K + 1 + (nested apps)` components, and the result splits into the
non-application components followed by the application-bundle components. -/
theorem c1_discover_order (base : List String) (n : String) (cs : List FSTree)
    (h : extOfName n = ".app") :
    (findComponents base (FSTree.dir n cs)).length
        = countAppex (FSTree.dir n cs) + countFramework (FSTree.dir n cs)
          + countDylib (FSTree.dir n cs) + (1 + countNestedApps cs)
    ∧ ∃ A B, findComponents base (FSTree.dir n cs) = A ++ B
        ∧ (∀ x ∈ A, ¬ extL x = ".app") ∧ (∀ x ∈ B, extL x = ".app") := by
  constructor
  · have h1 := walkNode_length base (FSTree.dir n cs)
    have h2 := countNode_split (FSTree.dir n cs)
    have h3 : countApp (FSTree.dir n cs) = 1 + countNestedApps cs := by
      simp [countApp, countNode, countNestedApps, h]
    have h4 : (findComponents base (FSTree.dir n cs)).length
        = ((walkNode base (FSTree.dir n cs)).filter (fun c => !(extL c == ".app"))).length
          + ((walkNode base (FSTree.dir n cs)).filter (fun c => extL c == ".app")).length := by
      simp [findComponents]
    have h5 := filter_partition_length (walkNode base (FSTree.dir n cs))
      (fun c => extL c == ".app")
    omega
  · refine ⟨(walkNode base (FSTree.dir n cs)).filter (fun c => !(extL c == ".app")),
      (walkNode base (FSTree.dir n cs)).filter (fun c => extL c == ".app"), rfl, ?_, ?_⟩
    · intro x hx
      have := (List.mem_filter.mp hx).2
      simpa using this
    · intro x hx
      have := (List.mem_filter.mp hx).2
      simpa using this

/-- Children of the sample application bundle used as a concrete witness
(mirrors the layout of `TestFindComponents` in `resigner_test.go`). -/
def sampleChildren : List FSTree :=
  [FSTree.dir "Frameworks" [FSTree.dir "Test.framework" []],
   FSTree.dir "PlugIns" [FSTree.dir "Widget.appex" []],
   FSTree.file "test.dylib" ""]

/-- The sample application bundle `Test.app`. -/
def sampleApp : FSTree := FSTree.dir "Test.app" sampleChildren

/-- Witness for C1 at a concrete bundle: one framework, one extension, one
dylib, no nested apps, so four components with the `.app` bundle last. -/
theorem c1_discover_order_witness :
    ((findComponents ["Payload"] sampleApp).length
        = countAppex sampleApp + countFramework sampleApp
          + countDylib sampleApp + (1 + countNestedApps sampleChildren)
      ∧ ∃ A B, findComponents ["Payload"] sampleApp = A ++ B
          ∧ (∀ x ∈ A, ¬ extL x = ".app") ∧ (∀ x ∈ B, extL x = ".app"))
    ∧ (findComponents ["Payload"] sampleApp).length = 4 := by
  refine ⟨c1_discover_order ["Payload"] "Test.app" sampleChildren (by decide), by decide⟩

/-! ## Job configuration and environment -/

/-- `Config` (resigner.go:14-20).  As in Go, an empty string means the
optional field is unset. -/
structure Config where
  SourceIPA : String
  Certificate : String
  Entitlements : String
  MobileProvision : String
  BundleID : String
deriving DecidableEq

/-- One pipeline run's external world: oracles for every fallible
file-system operation and every external process invocation the resigner
performs.  Paths handed to the oracles are segment lists relative to the
directory containing the source package. -/
structure Env where
  /-- `os.Stat` + `os.IsNotExist` on a configured path (resigner.go:119-131):
  `true` when the path exists (or stat fails for a reason other than
  non-existence, which Go's check lets through). -/
  statOk : String → Bool
  /-- `os.MkdirAll` in `setupDirectories` (resigner.go:141). -/
  mkdirOk : Bool
  /-- `unzip(SourceIPA, appDir)` (resigner.go:156). -/
  unzipOk : Bool
  /-- `os.MkdirAll` + `copyDir` of the bare-`.app` branch
  (resigner.go:161-167). -/
  copyTreeOk : Bool
  /-- `os.ReadDir(payloadDir)` succeeding (resigner.go:174). -/
  readDirOk : Bool
  /-- The names `os.ReadDir(payloadDir)` returns (resigner.go:174). -/
  payloadEntries : List String
  /-- `copyFile` of the configured provisioning profile (resigner.go:195). -/
  copyProvisionOk : Bool
  /-- Contents of a source file read by `copyFile` (resigner.go:458-473);
  `none` when the file cannot be opened. -/
  fileContent : String → Option String
  /-- Output of `security cms -D -i embedded.mobileprovision`
  (resigner.go:217-218); `none` when the invocation fails. -/
  cmsDecode : Option String
  /-- `os.WriteFile(provisioningPlist, ...)` (resigner.go:223). -/
  writeProvOk : Bool
  /-- Output of `PlistBuddy -x -c Print:Entitlements` (resigner.go:228-229);
  `none` when the invocation fails. -/
  plistPrintEnt : Option String
  /-- `os.WriteFile(entitlementsPath, ...)` (resigner.go:234). -/
  writeEntOk : Bool
  /-- `PlistBuddy -c "Set:CFBundleIdentifier <id>" <plist>` succeeding
  (resigner.go:250-251, 274-275). -/
  setPlist : List String → String → Bool
  /-- `codesign ... <component>` succeeding (resigner.go:304-315). -/
  codesignOk : List String → Bool
  /-- The extracted application tree rooted at the application path. -/
  appTree : FSTree
  /-- `os.MkdirAll(resignedDir)` (resigner.go:326). -/
  mkOutOk : Bool
  /-- `zipDirectory(appDir, outputPath)` (resigner.go:340). -/
  zipOutOk : Bool
  /-- `copyDir(appPath, outputPath)` for bare-`.app` input (resigner.go:350). -/
  copyOutOk : Bool
  /-- Whether `dir/tmp` already exists before the run starts. -/
  tmpPreExists : Bool
  /-- Fault injection: `some k` makes the run panic at step boundary `k`,
  modelling an unexpected runtime fault (`none`: no fault). -/
  panicAt : Option Nat

/-- External invocations and file-system mutations recorded during a run. -/
inductive Event where
  /-- `setupDirectories` created `dir/tmp/app` (resigner.go:141). -/
  | mkTmpDir
  /-- `security cms -D -i <profile>` was invoked (resigner.go:217). -/
  | decodeProfile (profile : List String)
  /-- `PlistBuddy Print:Entitlements` was invoked (resigner.go:228). -/
  | printEntitlements
  /-- `PlistBuddy Set:CFBundleIdentifier <newID> <plist>` was invoked
  (resigner.go:250, 274). -/
  | setPlistID (plistPath : List String) (newID : String)
  /-- The `.appex` identifier mutation failed and was logged as a warning
  (resigner.go:276). -/
  | warnAppexID (component : List String)
  /-- `codesign` was invoked on a component (resigner.go:304). -/
  | codesignEv (component : List String)
deriving DecidableEq

/-- Working directory `dir/tmp/app` (resigner.go:138-139), as segments
relative to the source package's directory. -/
def appDirPath : List String := ["tmp", "app"]

/-- Payload directory `dir/tmp/app/Payload` (resigner.go:161, 173). -/
def payloadPath : List String := ["tmp", "app", "Payload"]

/-- Resolved entitlements file `dir/tmp/entitlements.plist`
(resigner.go:202). -/
def entitlementsPath : List String := ["tmp", "entitlements.plist"]

/-! ## Pipeline steps -/

/-- `validate` (resigner.go:112-133): returns the first failing check's
error message, or `none` when the configuration passes. -/
def validate (c : Config) (env : Env) : Option String :=
  if c.SourceIPA = "" then some "source IPA path is required"
  else if c.Certificate = "" then some "certificate is required"
  else if env.statOk c.SourceIPA = false then
    some ("source file does not exist: " ++ c.SourceIPA)
  else if c.MobileProvision ≠ "" && env.statOk c.MobileProvision = false then
    some ("mobile provision file does not exist: " ++ c.MobileProvision)
  else if c.Entitlements ≠ "" && env.statOk c.Entitlements = false then
    some ("entitlements file does not exist: " ++ c.Entitlements)
  else none

/-- `extractApp` (resigner.go:151-184): extract the IPA (or copy the bare
`.app`), then return the path of the FIRST entry of the Payload directory.
The only emptiness check is `len(entries) == 0`. -/
def extractApp (c : Config) (env : Env) : Except String (List String) :=
  let ext := lowerStr (extOfPathStr c.SourceIPA)
  if ext = ".ipa" then
    if env.unzipOk = false then .error "unzip failed"
    else
      if env.readDirOk = false then .error "read Payload failed"
      else
        match env.payloadEntries with
        | [] => .error "no app found in Payload directory"
        | e :: _ => .ok (payloadPath ++ [e])
  else if ext = ".app" then
    if env.copyTreeOk = false then .error "copy app failed"
    else
      if env.readDirOk = false then .error "read Payload failed"
      else
        match env.payloadEntries with
        | [] => .error "no app found in Payload directory"
        | e :: _ => .ok (payloadPath ++ [e])
  else .error ("unsupported file type: " ++ ext ++ " (must be .ipa or .app)")

/-- `handleMobileProvision` (resigner.go:187-196). -/
def handleMobileProvision (c : Config) (env : Env) : Option String :=
  if c.MobileProvision = "" then none
  else if env.copyProvisionOk then none else some "copy provision failed"

/-- `extractEntitlements` (resigner.go:199-239): returns the resolved
entitlements file path together with the bytes written to it, plus the trace
of external invocations performed. -/
def extractEntitlements (c : Config) (env : Env) (appPath : List String) :
    Except String (List String × String) × List Event :=
  if c.Entitlements ≠ "" then
    match env.fileContent c.Entitlements with
    | some b => (.ok (entitlementsPath, b), [])
    | none => (.error "copy entitlements failed", [])
  else
    let profile := appPath ++ ["embedded.mobileprovision"]
    match env.cmsDecode with
    | none => (.error "failed to decode provisioning profile",
        [Event.decodeProfile profile])
    | some _ =>
      if env.writeProvOk = false then
        (.error "write provisioning plist failed", [Event.decodeProfile profile])
      else
        match env.plistPrintEnt with
        | none => (.error "failed to extract entitlements",
            [Event.decodeProfile profile, Event.printEntitlements])
        | some ents =>
          if env.writeEntOk = false then
            (.error "write entitlements failed",
              [Event.decodeProfile profile, Event.printEntitlements])
          else (.ok (entitlementsPath, ents),
              [Event.decodeProfile profile, Event.printEntitlements])

/-- `handleBundleID` (resigner.go:242-252): mutate the primary bundle's
`CFBundleIdentifier` when `BundleID` is configured; the external tool's
error is returned as-is (modelled as "exit status 1"). -/
def handleBundleID (c : Config) (env : Env) (appPath : List String) :
    Option String × List Event :=
  if c.BundleID = "" then (none, [])
  else
    let infoPlist := appPath ++ ["Info.plist"]
    if env.setPlist infoPlist c.BundleID then
      (none, [Event.setPlistID infoPlist c.BundleID])
    else
      (some "exit status 1", [Event.setPlistID infoPlist c.BundleID])

/-- First signing loop of `signComponents` (resigner.go:265-288): walk the
component list with the `extraCounter`, mutating `.appex` identifiers
(non-fatally) and codesigning `.appex`/`.framework`/`.dylib` components
(fatally on failure). -/
def signLoop (c : Config) (env : Env) : List (List String) → Nat →
    Except String Unit × List Event
  | [], _ => (.ok (), [])
  | comp :: rest, counter =>
    let e := extL comp
    if e = ".appex" then
      let counterNext := if c.BundleID ≠ "" then counter + 1 else counter
      let pre : List Event :=
        if c.BundleID ≠ "" then
          let newID := c.BundleID ++ ".extra" ++ toString counter
          let infoPlist := comp ++ ["Info.plist"]
          if env.setPlist infoPlist newID then
            [Event.setPlistID infoPlist newID]
          else
            [Event.setPlistID infoPlist newID, Event.warnAppexID comp]
        else []
      if env.codesignOk comp then
        let r := signLoop c env rest counterNext
        (r.1, pre ++ [Event.codesignEv comp] ++ r.2)
      else (.error ("failed to sign " ++ String.intercalate "/" comp),
        pre ++ [Event.codesignEv comp])
    else if e = ".framework" ∨ e = ".dylib" then
      if env.codesignOk comp then
        let r := signLoop c env rest counter
        (r.1, Event.codesignEv comp :: r.2)
      else (.error ("failed to sign " ++ String.intercalate "/" comp),
        [Event.codesignEv comp])
    else signLoop c env rest counter

/-- Second signing loop of `signComponents` (resigner.go:291-297): codesign
every `.app` component. -/
def signLoopApp (env : Env) : List (List String) → Except String Unit × List Event
  | [] => (.ok (), [])
  | comp :: rest =>
    if extL comp = ".app" then
      if env.codesignOk comp then
        let r := signLoopApp env rest
        (r.1, Event.codesignEv comp :: r.2)
      else (.error ("failed to sign " ++ String.intercalate "/" comp),
        [Event.codesignEv comp])
    else signLoopApp env rest

/-- `signComponents` (resigner.go:255-300): discover components below the
Payload directory, run the non-app loop, then the app loop. -/
def signComponents (c : Config) (env : Env) : Except String Unit × List Event :=
  let comps := findComponents payloadPath env.appTree
  let r1 := signLoop c env comps 0
  match r1.1 with
  | .error m => (.error m, r1.2)
  | .ok () =>
    let r2 := signLoopApp env comps
    (r2.1, r1.2 ++ r2.2)

/-- `createResignedIPA` (resigner.go:320-358). -/
def createResignedIPA (c : Config) (env : Env) : Option String :=
  if env.mkOutOk = false then some "mkdir Resigned failed"
  else
    let ext := lowerStr (extOfPathStr c.SourceIPA)
    if ext = ".ipa" then
      if env.zipOutOk then none else some "zip failed"
    else if ext = ".app" then
      if env.copyOutOk then none else some "copy out failed"
    else none

/-! ## The orchestrator `Resign` (resigner.go:50-109) -/

/-- Result of the body of `Resign` before the deferred recover runs:
normal success, a returned error, or an uncaught panic. -/
inductive BodyRes where
  | ok
  | err (m : String)
  | crashed (m : String)
deriving DecidableEq

/-- Observable outcome of a run: result, whether `r.tmpDir` was assigned
(resigner.go:145), whether `dir/tmp` exists on the file system afterwards,
the recorded invocation trace, and the emitted progress log. -/
structure RunOut where
  res : BodyRes
  tmpDirSet : Bool
  tmpExists : Bool
  trace : List Event
  log : List String

/-- The body of `Resign` (resigner.go:63-108): the straight-line pipeline,
without the deferred recover/cleanup.  `env.panicAt = some k` injects an
unexpected runtime fault at step boundary `k`, modelling a panic anywhere
during the run. -/
def resignBody (c : Config) (env : Env) : RunOut :=
  let pre := env.tmpPreExists
  if env.panicAt = some 0 then ⟨.crashed "injected", false, pre, [], []⟩ else
  match validate c env with
  | some m => ⟨.err m, false, pre, [], []⟩
  | none =>
    let log1 := ["Start (re)sign the app..."]
    if env.panicAt = some 1 then ⟨.crashed "injected", false, pre, [], log1⟩ else
    if env.mkdirOk = false then
      ⟨.err "failed to setup directories: mkdir failed", false, pre, [], log1⟩
    else
      let tr1 := [Event.mkTmpDir]
      if env.panicAt = some 2 then ⟨.crashed "injected", true, true, tr1, log1⟩ else
      match extractApp c env with
      | .error m => ⟨.err ("failed to extract app: " ++ m), true, true, tr1, log1⟩
      | .ok appP =>
        if env.panicAt = some 3 then ⟨.crashed "injected", true, true, tr1, log1⟩ else
        match handleMobileProvision c env with
        | some m =>
          ⟨.err ("failed to handle mobile provision: " ++ m), true, true, tr1, log1⟩
        | none =>
          if env.panicAt = some 4 then ⟨.crashed "injected", true, true, tr1, log1⟩ else
          let ent := extractEntitlements c env appP
          match ent.1 with
          | .error m =>
            ⟨.err ("failed to extract entitlements: " ++ m), true, true,
              tr1 ++ ent.2, log1⟩
          | .ok _ =>
            if env.panicAt = some 5 then
              ⟨.crashed "injected", true, true, tr1 ++ ent.2, log1⟩ else
            let hb := handleBundleID c env appP
            match hb.1 with
            | some m =>
              ⟨.err ("failed to handle bundle ID: " ++ m), true, true,
                tr1 ++ ent.2 ++ hb.2, log1⟩
            | none =>
              if env.panicAt = some 6 then
                ⟨.crashed "injected", true, true, tr1 ++ ent.2 ++ hb.2, log1⟩ else
              let sc := signComponents c env
              match sc.1 with
              | .error m =>
                ⟨.err ("failed to sign components: " ++ m), true, true,
                  tr1 ++ ent.2 ++ hb.2 ++ sc.2, log1⟩
              | .ok () =>
                if env.panicAt = some 7 then
                  ⟨.crashed "injected", true, true, tr1 ++ ent.2 ++ hb.2 ++ sc.2, log1⟩
                else
                  match createResignedIPA c env with
                  | some m =>
                    ⟨.err ("failed to create resigned IPA: " ++ m), true, true,
                      tr1 ++ ent.2 ++ hb.2 ++ sc.2, log1⟩
                  | none =>
                    ⟨.ok, true, true, tr1 ++ ent.2 ++ hb.2 ++ sc.2,
                      log1 ++ ["XReSign FINISHED"]⟩

/-- `Resign` (resigner.go:50-61): run the body, then the deferred function:
recover any panic into a normal error (also logging it), and delete
`dir/tmp` recursively whenever `r.tmpDir` was assigned. -/
def Resign (c : Config) (env : Env) : RunOut :=
  let b := resignBody c env
  { res :=
      match b.res with
      | .crashed m => .err ("panic occurred: " ++ m)
      | x => x
    tmpDirSet := b.tmpDirSet
    tmpExists := if b.tmpDirSet then false else b.tmpExists
    trace := b.trace
    log :=
      match b.res with
      | .crashed m => b.log ++ ["ERROR: panic occurred: " ++ m]
      | _ => b.log }

/-- `logProgress` (resigner.go:42-47) restricted to the callback branch: the
callback is invoked only when it is non-nil. -/
def logProgress {α : Type} (cb : Option (String → α)) (m : String) : List α :=
  match cb with
  | none => []
  | some f => [f m]

/-- `Resign` as observed through a possibly-nil `ProgressCallback`
(resigner.go:34-47): the run itself, plus the list of callback invocations,
each message passing through the `logProgress` nil guard. -/
def ResignWithCallback {α : Type} (c : Config) (env : Env)
    (cb : Option (String → α)) : RunOut × List α :=
  let out := Resign c env
  (out, (out.log.map (fun m => logProgress cb m)).flatten)

/-! ## Concrete fixtures for witnesses -/

/-- A configuration with an `.ipa` source and a certificate only. -/
def cfgIpa : Config := ⟨"Test.ipa", "Cert", "", "", ""⟩

/-- A configuration that additionally supplies an entitlements override. -/
def cfgEnt : Config := ⟨"Test.ipa", "Cert", "my.plist", "", ""⟩

/-- An environment in which every oracle succeeds. -/
def envOk : Env where
  statOk := fun _ => true
  mkdirOk := true
  unzipOk := true
  copyTreeOk := true
  readDirOk := true
  payloadEntries := ["Test.app"]
  copyProvisionOk := true
  fileContent := fun _ => some "ENTITLEMENTS"
  cmsDecode := some "PROFILE"
  writeProvOk := true
  plistPrintEnt := some "ENTS"
  writeEntOk := true
  setPlist := fun _ _ => true
  codesignOk := fun _ => true
  appTree := sampleApp
  mkOutOk := true
  zipOutOk := true
  copyOutOk := true
  tmpPreExists := false
  panicAt := none

/-- `envOk` with two top-level entries in the Payload directory. -/
def envTwoApps : Env := { envOk with payloadEntries := ["A.app", "B.app"] }

/-- `envOk` with an empty Payload directory. -/
def envEmptyPayload : Env := { envOk with payloadEntries := [] }

/-! ## C3: Payload-entry handling of `extractApp` -/

/-- C3 counterexample: with TWO top-level Payload entries, `extractApp`
does not fail — it silently returns the first entry's path
(resigner.go:182), contradicting the claimed `StructureError`. -/
theorem c3_counterexample :
    extractApp cfgIpa envTwoApps = Except.ok ["tmp", "app", "Payload", "A.app"]
    ∧ envTwoApps.payloadEntries = ["A.app", "B.app"] :=
  ⟨rfl, rfl⟩

/-- The extraction phase (unzip or bare-bundle copy) succeeded
(resigner.go:154-170). -/
def extractionOk (c : Config) (env : Env) : Bool :=
  (lowerStr (extOfPathStr c.SourceIPA) == ".ipa" && env.unzipOk)
  || (lowerStr (extOfPathStr c.SourceIPA) == ".app" && env.copyTreeOk)

/-- C3 amended: after a successful extraction, `extractApp` fails only when
the Payload directory is empty; with one or more entries it returns the
first entry's path without error. -/
theorem c3_payload_entries (c : Config) (env : Env)
    (hx : extractionOk c env = true) (hr : env.readDirOk = true) :
    (env.payloadEntries = [] →
        extractApp c env = .error "no app found in Payload directory")
    ∧ (∀ e rest, env.payloadEntries = e :: rest →
        extractApp c env = .ok (payloadPath ++ [e])) := by
  unfold extractionOk at hx
  rcases Bool.or_eq_true_iff.mp hx with h | h
  · have h1 : lowerStr (extOfPathStr c.SourceIPA) = ".ipa" :=
      beq_iff_eq.mp (Bool.and_eq_true_iff.mp h).1
    have h2 : env.unzipOk = true := (Bool.and_eq_true_iff.mp h).2
    constructor
    · intro he
      simp [extractApp, h1, h2, hr, he]
    · intro e rest he
      simp [extractApp, h1, h2, hr, he]
  · have h1 : lowerStr (extOfPathStr c.SourceIPA) = ".app" :=
      beq_iff_eq.mp (Bool.and_eq_true_iff.mp h).1
    have h2 : env.copyTreeOk = true := (Bool.and_eq_true_iff.mp h).2
    have hni : lowerStr (extOfPathStr c.SourceIPA) ≠ ".ipa" := by
      rw [h1]; decide
    constructor
    · intro he
      simp [extractApp, h1, hni, h2, hr, he]
    · intro e rest he
      simp [extractApp, h1, hni, h2, hr, he]

/-- Witness for the amended C3: a singleton Payload gives the sole entry's
path; an empty Payload gives the error. -/
theorem c3_payload_entries_witness :
    extractApp cfgIpa envOk = .ok ["tmp", "app", "Payload", "Test.app"]
    ∧ extractApp cfgIpa envEmptyPayload = .error "no app found in Payload directory" :=
  ⟨(c3_payload_entries cfgIpa envOk (by decide) rfl).2 "Test.app" [] rfl,
   (c3_payload_entries cfgIpa envEmptyPayload (by decide) rfl).1 rfl⟩

/-! ## C4: entitlements-override precedence -/

/-- C4: when `jobConfig.Entitlements` is set, the resolved entitlements file
holds exactly the input file's bytes, and `security cms` (the provisioning
decode) is never invoked (resigner.go:204-210). -/
theorem c4_entitlements_precedence (c : Config) (env : Env)
    (appPath : List String) (b : String)
    (h : c.Entitlements ≠ "") (hf : env.fileContent c.Entitlements = some b) :
    (extractEntitlements c env appPath).1 = .ok (entitlementsPath, b)
    ∧ ∀ p, Event.decodeProfile p ∉ (extractEntitlements c env appPath).2 := by
  constructor
  · simp [extractEntitlements, h, hf]
  · intro p
    simp [extractEntitlements, h, hf]

/-- Witness for C4 at a concrete configuration. -/
theorem c4_entitlements_precedence_witness :
    (extractEntitlements cfgEnt envOk ["tmp", "app", "Payload", "Test.app"]).1
        = .ok (entitlementsPath, "ENTITLEMENTS")
    ∧ ∀ p, Event.decodeProfile p
        ∉ (extractEntitlements cfgEnt envOk ["tmp", "app", "Payload", "Test.app"]).2 :=
  c4_entitlements_precedence cfgEnt envOk _ "ENTITLEMENTS" (by decide) rfl

/-! ## Lemmas about the signing loops -/

/-- The `Set:CFBundleIdentifier` invocations of a trace, in order. -/
def setEvents (tr : List Event) : List (List String × String) :=
  tr.filterMap (fun e => match e with
    | .setPlistID p i => some (p, i)
    | _ => none)

/-- Pair each list element with its index, starting at `k`. -/
def enumF (k : Nat) : List α → List (Nat × α)
  | [] => []
  | a :: as => (k, a) :: enumF (k + 1) as

/-- A component extension that the first signing loop codesigns. -/
def isNonAppSignable (e : String) : Prop :=
  e = ".appex" ∨ e = ".framework" ∨ e = ".dylib"

instance (e : String) : Decidable (isNonAppSignable e) := by
  unfold isNonAppSignable
  infer_instance

/-- When every codesign invocation succeeds, the first loop succeeds and
codesigns every `.appex`/`.framework`/`.dylib` component it is given. -/
theorem signLoop_all_ok (c : Config) (env : Env)
    (hcs : ∀ p, env.codesignOk p = true) :
    ∀ (comps : List (List String)) (k : Nat),
      (signLoop c env comps k).1 = .ok ()
      ∧ ∀ comp ∈ comps, isNonAppSignable (extL comp) →
          Event.codesignEv comp ∈ (signLoop c env comps k).2 := by
  intro comps
  induction comps with
  | nil => intro k; exact ⟨rfl, by simp⟩
  | cons comp rest ih =>
    intro k
    by_cases h1 : extL comp = ".appex"
    · constructor
      · simp only [signLoop, h1, if_pos, hcs comp, if_true]
        exact (ih _).1
      · intro comp' hm hsig
        simp only [signLoop, h1, if_pos, hcs comp, if_true, List.mem_append,
          List.mem_singleton]
        rcases List.mem_cons.mp hm with rfl | hm'
        · simp
        · refine Or.inr ?_
          have := (ih (if c.BundleID ≠ "" then k + 1 else k)).2 comp' hm' hsig
          simpa using this
    · by_cases h2 : extL comp = ".framework" ∨ extL comp = ".dylib"
      · constructor
        · simp only [signLoop, h1, if_neg, if_pos, h2, hcs comp, if_true]
          exact (ih k).1
        · intro comp' hm hsig
          simp only [signLoop, h1, if_neg, if_pos, h2, hcs comp, if_true,
            List.mem_cons]
          rcases List.mem_cons.mp hm with rfl | hm'
          · simp
          · have := (ih k).2 comp' hm' hsig
            simp [this]
      · constructor
        · simp only [signLoop, h1, h2, if_neg, if_false]
          exact (ih k).1
        · intro comp' hm hsig
          rcases List.mem_cons.mp hm with rfl | hm'
          · exact absurd hsig (by simp [isNonAppSignable, h1, not_or.mp h2])
          · simp only [signLoop, h1, h2, if_neg, if_false]
            exact (ih k).2 comp' hm' hsig

/-- When every codesign invocation succeeds, the app loop succeeds and
codesigns every `.app` component it is given. -/
theorem signLoopApp_all_ok (env : Env) (hcs : ∀ p, env.codesignOk p = true) :
    ∀ comps : List (List String),
      (signLoopApp env comps).1 = .ok ()
      ∧ ∀ comp ∈ comps, extL comp = ".app" →
          Event.codesignEv comp ∈ (signLoopApp env comps).2 := by
  intro comps
  induction comps with
  | nil => exact ⟨rfl, by simp⟩
  | cons comp rest ih =>
    by_cases h1 : extL comp = ".app"
    · constructor
      · simp only [signLoopApp, h1, if_pos, hcs comp, if_true]
        exact ih.1
      · intro comp' hm hsig
        simp only [signLoopApp, h1, if_pos, hcs comp, if_true, List.mem_cons]
        rcases List.mem_cons.mp hm with rfl | hm'
        · simp
        · exact Or.inr (ih.2 comp' hm' hsig)
    · constructor
      · simp only [signLoopApp, h1, if_neg, if_false]
        exact ih.1
      · intro comp' hm hsig
        rcases List.mem_cons.mp hm with rfl | hm'
        · exact absurd hsig h1
        · simp only [signLoopApp, h1, if_neg, if_false]
          exact ih.2 comp' hm' hsig

/-- A forced failure of the `.appex` identifier mutation is logged as a
warning in the trace (non-fatally). -/
theorem signLoop_warn (c : Config) (env : Env) (hB : c.BundleID ≠ "")
    (hcs : ∀ p, env.codesignOk p = true) :
    ∀ (comps : List (List String)) (k : Nat) (comp : List String),
      comp ∈ comps → extL comp = ".appex" →
      (∀ s, env.setPlist (comp ++ ["Info.plist"]) s = false) →
      Event.warnAppexID comp ∈ (signLoop c env comps k).2 := by
  intro comps
  induction comps with
  | nil => intro k comp hm; simp at hm
  | cons comp0 rest ih =>
    intro k comp hm hext hset
    rcases List.mem_cons.mp hm with rfl | hm'
    · simp only [signLoop, hext, if_pos, hcs comp, if_true, hB,
        ne_eq, not_false_eq_true, hset, List.mem_append]
      simp [hset]
    · by_cases h1 : extL comp0 = ".appex"
      · simp only [signLoop, h1, if_pos, hcs comp0, if_true, List.mem_append]
        exact Or.inr (ih _ comp hm' hext hset)
      · by_cases h2 : extL comp0 = ".framework" ∨ extL comp0 = ".dylib"
        · have he : signLoop c env (comp0 :: rest) k
              = ((signLoop c env rest k).1,
                 Event.codesignEv comp0 :: (signLoop c env rest k).2) := by
            simp [signLoop, h1, h2, hcs comp0]
          rw [he]
          exact List.mem_cons_of_mem _ (ih k comp hm' hext hset)
        · have he : signLoop c env (comp0 :: rest) k = signLoop c env rest k := by
            simp [signLoop, h1, h2]
          rw [he]
          exact ih k comp hm' hext hset

/-- `setEvents` distributes over trace concatenation. -/
theorem setEvents_append (a b : List Event) :
    setEvents (a ++ b) = setEvents a ++ setEvents b := by
  simp [setEvents, List.filterMap_append]

/-- With `BundleID` configured and codesign succeeding, the identifier
mutations recorded by the first loop are exactly one per `.appex`
component, in order, with identifiers `BundleID ++ ".extra" ++ i` counted
from the starting counter. -/
theorem signLoop_setEvents (c : Config) (env : Env) (hB : c.BundleID ≠ "")
    (hcs : ∀ p, env.codesignOk p = true) :
    ∀ (comps : List (List String)) (k : Nat),
      setEvents (signLoop c env comps k).2
        = (enumF k (comps.filter (fun comp => extL comp == ".appex"))).map
            (fun pr => (pr.2 ++ ["Info.plist"],
              c.BundleID ++ ".extra" ++ toString pr.1)) := by
  intro comps
  induction comps with
  | nil => intro k; rfl
  | cons comp rest ih =>
    intro k
    by_cases h1 : extL comp = ".appex"
    · have hb1 : (extL comp == ".appex") = true := beq_iff_eq.mpr h1
      by_cases hS : env.setPlist (comp ++ ["Info.plist"])
          (c.BundleID ++ ".extra" ++ toString k) = true
      · have he : signLoop c env (comp :: rest) k
            = ((signLoop c env rest (k + 1)).1,
               [Event.setPlistID (comp ++ ["Info.plist"])
                  (c.BundleID ++ ".extra" ++ toString k)]
                 ++ [Event.codesignEv comp]
                 ++ (signLoop c env rest (k + 1)).2) := by
          simp [signLoop, h1, hB, hS, hcs comp]
        rw [he]
        show setEvents (_ ++ _ ++ _) = _
        rw [setEvents_append, setEvents_append,
          show setEvents [Event.setPlistID (comp ++ ["Info.plist"])
            (c.BundleID ++ ".extra" ++ toString k)]
            = [(comp ++ ["Info.plist"], c.BundleID ++ ".extra" ++ toString k)] from rfl,
          show setEvents [Event.codesignEv comp] = [] from rfl,
          ih (k + 1)]
        simp [List.filter_cons, hb1, enumF]
      · have hS' : env.setPlist (comp ++ ["Info.plist"])
            (c.BundleID ++ ".extra" ++ toString k) = false :=
          Bool.eq_false_iff.mpr hS
        have he : signLoop c env (comp :: rest) k
            = ((signLoop c env rest (k + 1)).1,
               [Event.setPlistID (comp ++ ["Info.plist"])
                  (c.BundleID ++ ".extra" ++ toString k),
                Event.warnAppexID comp]
                 ++ [Event.codesignEv comp]
                 ++ (signLoop c env rest (k + 1)).2) := by
          simp [signLoop, h1, hB, hS', hcs comp]
        rw [he]
        show setEvents (_ ++ _ ++ _) = _
        rw [setEvents_append, setEvents_append,
          show setEvents [Event.setPlistID (comp ++ ["Info.plist"])
            (c.BundleID ++ ".extra" ++ toString k), Event.warnAppexID comp]
            = [(comp ++ ["Info.plist"], c.BundleID ++ ".extra" ++ toString k)] from rfl,
          show setEvents [Event.codesignEv comp] = [] from rfl,
          ih (k + 1)]
        simp [List.filter_cons, hb1, enumF]
    · have hb1 : (extL comp == ".appex") = false := beq_eq_false_iff_ne.mpr h1
      by_cases h2 : extL comp = ".framework" ∨ extL comp = ".dylib"
      · have he : signLoop c env (comp :: rest) k
            = ((signLoop c env rest k).1,
               Event.codesignEv comp :: (signLoop c env rest k).2) := by
          simp [signLoop, h1, h2, hcs comp]
        rw [he]
        rw [show setEvents (Event.codesignEv comp :: (signLoop c env rest k).2)
          = setEvents (signLoop c env rest k).2 from rfl, ih k]
        simp [List.filter_cons, hb1]
      · have he : signLoop c env (comp :: rest) k = signLoop c env rest k := by
          simp [signLoop, h1, h2]
        rw [he, ih k]
        simp [List.filter_cons, hb1]

/-- With `BundleID` unset, the first loop performs no identifier mutation at
all (whether or not codesign succeeds). -/
theorem signLoop_setEvents_unset (c : Config) (env : Env)
    (hB : c.BundleID = "") :
    ∀ (comps : List (List String)) (k : Nat),
      setEvents (signLoop c env comps k).2 = [] := by
  intro comps
  induction comps with
  | nil => intro k; rfl
  | cons comp rest ih =>
    intro k
    by_cases h1 : extL comp = ".appex"
    · by_cases hc : env.codesignOk comp = true
      · have he : signLoop c env (comp :: rest) k
            = ((signLoop c env rest k).1,
               Event.codesignEv comp :: (signLoop c env rest k).2) := by
          simp [signLoop, h1, hB, hc]
        rw [he]
        rw [show setEvents (Event.codesignEv comp :: (signLoop c env rest k).2)
          = setEvents (signLoop c env rest k).2 from rfl]
        exact ih k
      · have hc' : env.codesignOk comp = false := Bool.eq_false_iff.mpr hc
        have he : (signLoop c env (comp :: rest) k).2 = [Event.codesignEv comp] := by
          simp [signLoop, h1, hB, hc']
        rw [he]
        rfl
    · by_cases h2 : extL comp = ".framework" ∨ extL comp = ".dylib"
      · by_cases hc : env.codesignOk comp = true
        · have he : signLoop c env (comp :: rest) k
              = ((signLoop c env rest k).1,
                 Event.codesignEv comp :: (signLoop c env rest k).2) := by
            simp [signLoop, h1, h2, hc]
          rw [he]
          rw [show setEvents (Event.codesignEv comp :: (signLoop c env rest k).2)
            = setEvents (signLoop c env rest k).2 from rfl]
          exact ih k
        · have hc' : env.codesignOk comp = false := Bool.eq_false_iff.mpr hc
          have he : (signLoop c env (comp :: rest) k).2 = [Event.codesignEv comp] := by
            simp [signLoop, h1, h2, hc']
          rw [he]
          rfl
      · have he : signLoop c env (comp :: rest) k = signLoop c env rest k := by
          simp [signLoop, h1, h2]
        rw [he]
        exact ih k

/-- The app loop never mutates identifiers. -/
theorem signLoopApp_setEvents (env : Env) :
    ∀ comps : List (List String),
      setEvents (signLoopApp env comps).2 = [] := by
  intro comps
  induction comps with
  | nil => rfl
  | cons comp rest ih =>
    by_cases h1 : extL comp = ".app"
    · by_cases hc : env.codesignOk comp = true
      · have he : signLoopApp env (comp :: rest)
            = ((signLoopApp env rest).1,
               Event.codesignEv comp :: (signLoopApp env rest).2) := by
          simp [signLoopApp, h1, hc]
        rw [he]
        rw [show setEvents (Event.codesignEv comp :: (signLoopApp env rest).2)
          = setEvents (signLoopApp env rest).2 from rfl]
        exact ih
      · have hc' : env.codesignOk comp = false := Bool.eq_false_iff.mpr hc
        have he : (signLoopApp env (comp :: rest)).2 = [Event.codesignEv comp] := by
          simp [signLoopApp, h1, hc']
        rw [he]
        rfl
    · have he : signLoopApp env (comp :: rest) = signLoopApp env rest := by
        simp [signLoopApp, h1]
      rw [he]
      exact ih

/-- The entitlements-resolution trace never contains a codesign event. -/
theorem extractEntitlements_no_codesign (c : Config) (env : Env)
    (appP : List String) :
    ∀ comp, Event.codesignEv comp ∉ (extractEntitlements c env appP).2 := by
  intro comp
  by_cases h : c.Entitlements ≠ ""
  · cases hf : env.fileContent c.Entitlements <;>
      simp [extractEntitlements, h, hf]
  · cases hd : env.cmsDecode with
    | none => simp [extractEntitlements, h, hd]
    | some v =>
      by_cases hw : env.writeProvOk = false
      · simp [extractEntitlements, h, hd, hw]
      · cases hpp : env.plistPrintEnt with
        | none => simp [extractEntitlements, h, hd, hw, hpp]
        | some e2 =>
          by_cases hw2 : env.writeEntOk = false <;>
            simp [extractEntitlements, h, hd, hw, hpp, hw2]

/-! ## C5: derived extension bundle identifiers -/

/-- C5: with `BundleID` set, the `i`-th discovered extension (zero-based) is
mutated to exactly `BundleID ++ ".extra" ++ i` in discovery order
(resigner.go:265-279); with `BundleID` unset, no extension identifier is
changed. -/
theorem c5_bundle_id_derivation (c : Config) (env : Env) :
    (c.BundleID ≠ "" → (∀ p, env.codesignOk p = true) →
      setEvents (signComponents c env).2
        = (enumF 0 ((findComponents payloadPath env.appTree).filter
            (fun comp => extL comp == ".appex"))).map
            (fun pr => (pr.2 ++ ["Info.plist"],
              c.BundleID ++ ".extra" ++ toString pr.1)))
    ∧ (c.BundleID = "" → setEvents (signComponents c env).2 = []) := by
  constructor
  · intro hB hcs
    have h1 := (signLoop_all_ok c env hcs (findComponents payloadPath env.appTree) 0).1
    have he : (signComponents c env).2
        = (signLoop c env (findComponents payloadPath env.appTree) 0).2
          ++ (signLoopApp env (findComponents payloadPath env.appTree)).2 := by
      simp [signComponents, h1]
    rw [he, setEvents_append,
      signLoopApp_setEvents env (findComponents payloadPath env.appTree),
      signLoop_setEvents c env hB hcs (findComponents payloadPath env.appTree) 0]
    simp
  · intro hB
    cases hr : (signLoop c env (findComponents payloadPath env.appTree) 0).1 with
    | error m =>
      have he : (signComponents c env).2
          = (signLoop c env (findComponents payloadPath env.appTree) 0).2 := by
        simp [signComponents, hr]
      rw [he, signLoop_setEvents_unset c env hB]
    | ok u =>
      cases u
      have he : (signComponents c env).2
          = (signLoop c env (findComponents payloadPath env.appTree) 0).2
            ++ (signLoopApp env (findComponents payloadPath env.appTree)).2 := by
        simp [signComponents, hr]
      rw [he, setEvents_append, signLoop_setEvents_unset c env hB,
        signLoopApp_setEvents env (findComponents payloadPath env.appTree)]
      rfl

/-- A configuration requesting the new bundle identifier `com.acme.app`. -/
def cfgBid : Config := ⟨"Test.ipa", "Cert", "", "", "com.acme.app"⟩

/-- An application bundle with three extensions, in order. -/
def treeThreeAppex : FSTree :=
  FSTree.dir "My.app"
    [FSTree.dir "PlugIns"
      [FSTree.dir "A.appex" [], FSTree.dir "B.appex" [], FSTree.dir "C.appex" []]]

/-- `envOk` over the three-extension bundle. -/
def envThreeAppex : Env := { envOk with appTree := treeThreeAppex }

/-- Witness for C5: the three extensions get `.extra0`, `.extra1`,
`.extra2`, in discovery order. -/
theorem c5_bundle_id_derivation_witness :
    setEvents (signComponents cfgBid envThreeAppex).2
      = [(["tmp", "app", "Payload", "My.app", "PlugIns", "A.appex", "Info.plist"],
            "com.acme.app.extra0"),
         (["tmp", "app", "Payload", "My.app", "PlugIns", "B.appex", "Info.plist"],
            "com.acme.app.extra1"),
         (["tmp", "app", "Payload", "My.app", "PlugIns", "C.appex", "Info.plist"],
            "com.acme.app.extra2")] := by
  have h := (c5_bundle_id_derivation cfgBid envThreeAppex).1 (by decide) (fun p => rfl)
  rw [h]
  decide

/-! ## C2: non-fatal extension mutation vs. fatal primary mutation -/

/-- C2: (a) whatever the `Set:CFBundleIdentifier` oracle does on `.appex`
components, if codesign succeeds then `signComponents` succeeds, every
discovered component is codesigned, and a forced `.appex` mutation failure
is recorded as a warning; (b) a failure of the primary bundle's identifier
mutation makes `Resign` return the `Failed` error and no component is ever
codesigned. -/
theorem c2_fatal_vs_nonfatal (c : Config) (env : Env) :
    ((∀ p, env.codesignOk p = true) →
      (signComponents c env).1 = .ok ()
      ∧ (∀ comp ∈ findComponents payloadPath env.appTree,
          (isNonAppSignable (extL comp) ∨ extL comp = ".app") →
          Event.codesignEv comp ∈ (signComponents c env).2)
      ∧ (∀ comp ∈ findComponents payloadPath env.appTree,
          extL comp = ".appex" → c.BundleID ≠ "" →
          (∀ s, env.setPlist (comp ++ ["Info.plist"]) s = false) →
          Event.warnAppexID comp ∈ (signComponents c env).2))
    ∧ (∀ appP pr,
        env.panicAt = none →
        validate c env = none →
        env.mkdirOk = true →
        extractApp c env = .ok appP →
        handleMobileProvision c env = none →
        (extractEntitlements c env appP).1 = .ok pr →
        c.BundleID ≠ "" →
        env.setPlist (appP ++ ["Info.plist"]) c.BundleID = false →
        (Resign c env).res = .err "failed to handle bundle ID: exit status 1"
        ∧ ∀ comp, Event.codesignEv comp ∉ (Resign c env).trace) := by
  constructor
  · intro hcs
    have hl := signLoop_all_ok c env hcs (findComponents payloadPath env.appTree) 0
    have ha := signLoopApp_all_ok env hcs (findComponents payloadPath env.appTree)
    have he : (signComponents c env).2
        = (signLoop c env (findComponents payloadPath env.appTree) 0).2
          ++ (signLoopApp env (findComponents payloadPath env.appTree)).2 := by
      simp [signComponents, hl.1]
    refine ⟨?_, ?_, ?_⟩
    · simp [signComponents, hl.1, ha.1]
    · intro comp hm hsig
      rw [he]
      rcases hsig with hsig | hsig
      · exact List.mem_append_left _ (hl.2 comp hm hsig)
      · exact List.mem_append_right _ (ha.2 comp hm hsig)
    · intro comp hm hext hB hset
      rw [he]
      exact List.mem_append_left _ (signLoop_warn c env hB hcs
        (findComponents payloadPath env.appTree) 0 comp hm hext hset)
  · intro appP pr hp hv hm hx hmp hent hB hSet
    have hhb : handleBundleID c env appP
        = (some "exit status 1",
           [Event.setPlistID (appP ++ ["Info.plist"]) c.BundleID]) := by
      simp [handleBundleID, hB, hSet]
    have hne := extractEntitlements_no_codesign c env appP
    constructor
    · simp [Resign, resignBody, hp, hv, hm, hx, hmp, hent, hhb]
    · intro comp
      simp [Resign, resignBody, hp, hv, hm, hx, hmp, hent, hhb, hne comp]

/-- `envOk` over `sampleApp` with every identifier mutation failing. -/
def envSetFail : Env := { envOk with setPlist := fun _ _ => false }

/-- Witness for C2: with every `Set:CFBundleIdentifier` failing, the
extension is still codesigned (with a warning) and the run of
`signComponents` succeeds; the same forced failure on the primary bundle
makes `Resign` fail with no codesign invocation at all. -/
theorem c2_fatal_vs_nonfatal_witness :
    (signComponents cfgBid envSetFail).1 = .ok ()
    ∧ Event.codesignEv ["tmp", "app", "Payload", "Test.app", "PlugIns", "Widget.appex"]
        ∈ (signComponents cfgBid envSetFail).2
    ∧ Event.warnAppexID ["tmp", "app", "Payload", "Test.app", "PlugIns", "Widget.appex"]
        ∈ (signComponents cfgBid envSetFail).2
    ∧ (Resign cfgBid envSetFail).res = .err "failed to handle bundle ID: exit status 1"
    ∧ ∀ comp, Event.codesignEv comp ∉ (Resign cfgBid envSetFail).trace := by
  have hA := (c2_fatal_vs_nonfatal cfgBid envSetFail).1 (fun p => rfl)
  have hB := (c2_fatal_vs_nonfatal cfgBid envSetFail).2
    ["tmp", "app", "Payload", "Test.app"] (entitlementsPath, "ENTS")
    rfl rfl rfl rfl rfl rfl (by decide) rfl
  exact ⟨hA.1,
    hA.2.1 _ (by decide) (by decide),
    hA.2.2 _ (by decide) (by decide) (by decide) (fun s => rfl),
    hB.1, hB.2⟩

/-! ## C6: unconditional temp-directory cleanup -/

/-- C6: whenever the run assigned the temporary root (`r.tmpDir`, set only
by a successful `setupDirectories`), the deferred finalizer has removed it
by the time `Resign` returns — for success and for every failure class
(the statement quantifies over every environment). -/
theorem c6_cleanup_guarantee (c : Config) (env : Env)
    (h : (Resign c env).tmpDirSet = true) :
    (Resign c env).tmpExists = false := by
  simp only [Resign] at h ⊢
  simp [h]

/-- Witness for C6: a fully successful run allocates the temp root and ends
with it removed. -/
theorem c6_cleanup_guarantee_witness :
    (Resign cfgIpa envOk).tmpDirSet = true
    ∧ (Resign cfgIpa envOk).tmpExists = false :=
  ⟨rfl, c6_cleanup_guarantee cfgIpa envOk rfl⟩

/-! ## C7: panic containment -/

/-- C7: `Resign` never surfaces a crash: any panic in the body is converted
by the deferred recover into a normal error result, and the temp-directory
cleanup still executes. -/
theorem c7_panic_containment (c : Config) (env : Env) :
    (∀ m, (Resign c env).res ≠ BodyRes.crashed m)
    ∧ (∀ m, (resignBody c env).res = BodyRes.crashed m →
        (Resign c env).res = BodyRes.err ("panic occurred: " ++ m)
        ∧ ((Resign c env).tmpDirSet = true → (Resign c env).tmpExists = false)) := by
  constructor
  · intro m
    simp only [Resign]
    cases hb : (resignBody c env).res <;> simp [hb]
  · intro m hb
    refine ⟨by simp [Resign, hb], ?_⟩
    intro h
    simp only [Resign] at h ⊢
    simp [h]

/-- `envOk` with a fault injected after the temp directory is created. -/
def envPanic : Env := { envOk with panicAt := some 3 }

/-- Witness for C7: an injected fault mid-run yields a normal error result
and the temp directory is still removed. -/
theorem c7_panic_containment_witness :
    (Resign cfgIpa envPanic).res = BodyRes.err "panic occurred: injected"
    ∧ (Resign cfgIpa envPanic).tmpExists = false := by
  have h := (c7_panic_containment cfgIpa envPanic).2 "injected" rfl
  refine ⟨?_, h.2 rfl⟩
  rw [h.1]
  decide

/-! ## C8: validation failures and the unrecognized-extension case -/

/-- A config whose source exists but has an unrecognized extension. -/
def cfgTxt : Config := ⟨"doc.txt", "Cert", "", "", ""⟩

/-- C8 counterexample: an existing source with extension `.txt` passes
`validate` (which checks no extension, resigner.go:112-133); `Resign` then
CREATES the temp directory and only afterwards fails, inside `extractApp`
(resigner.go:168-170) — contradicting "fails with a ValidationError before
any filesystem mutation ... no temp directories created". -/
theorem c8_counterexample :
    validate cfgTxt envOk = none
    ∧ (Resign cfgTxt envOk).res
        = .err "failed to extract app: unsupported file type: .txt (must be .ipa or .app)"
    ∧ (Resign cfgTxt envOk).tmpDirSet = true
    ∧ Event.mkTmpDir ∈ (Resign cfgTxt envOk).trace := by
  refine ⟨rfl, by decide, rfl, by decide⟩

/-- C8 amended: a missing mandatory field or nonexistent referenced path is
rejected by `validate` before any filesystem mutation (the error is
returned unwrapped, no temp directory is assigned, the trace is empty);
an unrecognized source extension instead passes validation, the temp
directory is created, and the failure is raised by `extractApp`. -/
theorem c8_validation_boundary (c : Config) (env : Env)
    (hp : env.panicAt = none) :
    (∀ m, validate c env = some m →
        (Resign c env).res = .err m
        ∧ (Resign c env).tmpDirSet = false
        ∧ (Resign c env).trace = [])
    ∧ (validate c env = none → env.mkdirOk = true →
        lowerStr (extOfPathStr c.SourceIPA) ≠ ".ipa" →
        lowerStr (extOfPathStr c.SourceIPA) ≠ ".app" →
        (Resign c env).res = .err ("failed to extract app: "
            ++ ("unsupported file type: " ++ lowerStr (extOfPathStr c.SourceIPA)
                ++ " (must be .ipa or .app)"))
        ∧ Event.mkTmpDir ∈ (Resign c env).trace) := by
  constructor
  · intro m hv
    refine ⟨?_, ?_, ?_⟩ <;> simp [Resign, resignBody, hp, hv]
  · intro hv hm h1 h2
    have hx : extractApp c env = .error ("unsupported file type: "
        ++ lowerStr (extOfPathStr c.SourceIPA) ++ " (must be .ipa or .app)") := by
      simp [extractApp, h1, h2]
    constructor
    · simp [Resign, resignBody, hp, hv, hm, hx]
    · simp [Resign, resignBody, hp, hv, hm, hx]

/-- A config missing the mandatory certificate. -/
def cfgNoCert : Config := ⟨"Test.ipa", "", "", "", ""⟩

/-- Witness for the amended C8: a missing certificate fails in `validate`
with nothing allocated; a `.txt` source fails in `extractApp` after the
temp directory was created. -/
theorem c8_validation_boundary_witness :
    ((Resign cfgNoCert envOk).res = .err "certificate is required"
      ∧ (Resign cfgNoCert envOk).tmpDirSet = false
      ∧ (Resign cfgNoCert envOk).trace = [])
    ∧ ((Resign cfgTxt envOk).res = .err ("failed to extract app: "
          ++ ("unsupported file type: " ++ lowerStr (extOfPathStr cfgTxt.SourceIPA)
              ++ " (must be .ipa or .app)"))
      ∧ Event.mkTmpDir ∈ (Resign cfgTxt envOk).trace) :=
  ⟨(c8_validation_boundary cfgNoCert envOk rfl).1 "certificate is required" rfl,
   (c8_validation_boundary cfgTxt envOk rfl).2 rfl rfl (by decide) (by decide)⟩

/-! ## C10: nil progress callback safety -/

/-- C10: a nil `ProgressCallback` is safe — `logProgress` guards every
callback invocation with a nil check, so a run with no observer produces
exactly the same outcome, file-system state and log as a run with any
observer, and delivers no callback invocation. -/
theorem c10_nil_callback_safe {α : Type} (c : Config) (env : Env)
    (cb : Option (String → α)) :
    (ResignWithCallback c env cb).1
        = (ResignWithCallback c env (none : Option (String → α))).1
    ∧ (ResignWithCallback c env (none : Option (String → α))).2 = [] := by
  constructor
  · rfl
  · show ((Resign c env).log.map
        (fun m => logProgress (none : Option (String → α)) m)).flatten = []
    induction (Resign c env).log with
    | nil => rfl
    | cons x xs ih => simp [logProgress, ih]

/-! ## C9: archive extraction and compression (resigner.go:363-455)

A zip entry is a relative path (segment list; the empty list is the archive
root, written `./` by `zipDirectory`), a directory flag (Go encodes it as a
trailing `/` in the entry name) and the file bytes.  The destination
directory's contents are a sorted sibling list, mirroring the lexical order
`filepath.Walk` traverses. -/

/-- One zip archive entry. -/
structure ZEntry where
  path : List String
  isDir : Bool
  data : String

mutual

/-- The `filepath.Walk` body of `zipDirectory` (resigner.go:415-452): emit
the node's own header (directories with a trailing separator and empty
data, files with their bytes), then descend. -/
def walkZip (base : List String) : FSTree → List ZEntry
  | .file n c => [⟨base ++ [n], false, c⟩]
  | .dir n cs => ⟨base ++ [n], true, ""⟩ :: walkZipList (base ++ [n]) cs

/-- `walkZip` over sibling nodes in walk order. -/
def walkZipList (base : List String) : List FSTree → List ZEntry
  | [] => []
  | t :: ts => walkZip base t ++ walkZipList base ts

end

/-- `zipDirectory` (resigner.go:405-455) on the contents of the source
directory: the walk first visits the source root itself (relative path
`.`, emitted as the entry `./`), then its children. -/
def zipDirectory (body : List FSTree) : List ZEntry :=
  ⟨[], true, ""⟩ :: walkZipList [] body

/-- Generic insertion into a name-sorted sibling list: place `fresh` at the
sorted position of name `n`, or apply `upd` to an existing node of that
name.  This is the shared shape of creating a file (`O_CREATE|O_TRUNC`),
creating a directory (`MkdirAll`) and descending into a child directory. -/
def insAt (n : String) (fresh : FSTree) (upd : FSTree → FSTree) :
    List FSTree → List FSTree
  | [] => [fresh]
  | t :: ts =>
    if n < fsName t then fresh :: t :: ts
    else if fsName t = n then upd t :: ts
    else t :: insAt n fresh upd ts

/-- `os.OpenFile(..., O_WRONLY|O_CREATE|O_TRUNC, ...)` + write
(resigner.go:382-393): create or truncate the file `n`. -/
def setFile (body : List FSTree) (n : String) (c : String) : List FSTree :=
  insAt n (.file n c) (fun _ => .file n c) body

/-- One level of `os.MkdirAll` (resigner.go:374, 378): create directory `n`
if absent, otherwise keep the existing node. -/
def mkdirChild (body : List FSTree) (n : String) : List FSTree :=
  insAt n (.dir n []) (fun t => t) body

/-- Apply `f` to the contents of child directory `n`, creating it (with
`MkdirAll` semantics) when absent; an existing file of that name blocks the
descent and is kept unchanged. -/
def updateChild (body : List FSTree) (n : String) (f : List FSTree → List FSTree) :
    List FSTree :=
  insAt n (.dir n (f []))
    (fun t => match t with
      | .dir m cs => .dir m (f cs)
      | .file m c => .file m c) body

/-- Extraction of a single entry by `unzip` (resigner.go:370-400): a
directory entry is `MkdirAll(fpath)`; a file entry is
`MkdirAll(Dir(fpath))` followed by creating/truncating the file; the root
entry `./` joins back to the destination itself and is a no-op. -/
def insertPath (body : List FSTree) : List String → Bool → String → List FSTree
  | [], _, _ => body
  | [n], d, c => if d then mkdirChild body n else setFile body n c
  | n :: n2 :: p, d, c =>
    updateChild body n (fun sub => insertPath sub (n2 :: p) d c)

/-- Extraction of one archive entry (the loop body of resigner.go:370-400). -/
def insStep (body : List FSTree) (e : ZEntry) : List FSTree :=
  insertPath body e.path e.isDir e.data

/-- `unzip` (resigner.go:363-402): extract the entries in archive order
into the (initially empty) destination directory. -/
def unzip (entries : List ZEntry) : List FSTree :=
  entries.foldl insStep []

mutual

/-- Insert a whole tree below `body` (the effect of extracting all of the
tree's walk entries). -/
def insTree (t : FSTree) (body : List FSTree) : List FSTree :=
  match t with
  | .file n c => setFile body n c
  | .dir n cs => updateChild body n (fun sub => insTreeList cs sub)

/-- Insert a list of trees in order. -/
def insTreeList (ts : List FSTree) (body : List FSTree) : List FSTree :=
  match ts with
  | [] => body
  | t :: rest => insTreeList rest (insTree t body)

end

/-- Apply `f` to the sibling list found by descending along `base`,
creating missing directories along the way (and stopping at a blocking
file). -/
def digAt (body : List FSTree) : List String → (List FSTree → List FSTree) →
    List FSTree
  | [], f => f body
  | n :: p, f => updateChild body n (fun sub => digAt sub p f)

/-- Find the child of name `n` by the same traversal `insAt` uses. -/
def seekChild : List FSTree → String → Option FSTree
  | [], _ => none
  | t :: ts, n =>
    if n < fsName t then none
    else if fsName t = n then some t
    else seekChild ts n

/-- Every prefix of the path leads to an existing node (directory, or a
blocking file, which terminates any descent). -/
def chainPresent (body : List FSTree) : List String → Bool
  | [] => true
  | n :: p =>
    match seekChild body n with
    | none => false
    | some (.file _ _) => true
    | some (.dir _ cs) => chainPresent cs p

mutual

/-- Well-formedness of a node: directory contents are well-formed. -/
def WFt : FSTree → Prop
  | .file _ _ => True
  | .dir _ cs => WFl cs

/-- Well-formedness of a sibling list: strictly name-sorted (each node's
name below every later node's), all members well-formed. -/
def WFl : List FSTree → Prop
  | [] => True
  | t :: ts => WFt t ∧ (∀ u ∈ ts, fsName t < fsName u) ∧ WFl ts

end

/-! ## Round-trip lemmas -/

/-- `insAt` at a name whose node exists and is unchanged by `upd` is the
identity. -/
theorem insAt_found_id (n : String) (fresh : FSTree) (upd : FSTree → FSTree)
    (body : List FSTree) (t0 : FSTree) (h : seekChild body n = some t0)
    (hu : upd t0 = t0) :
    insAt n fresh upd body = body := by
  induction body with
  | nil => simp [seekChild] at h
  | cons t ts ih =>
    by_cases h1 : n < fsName t
    · simp [seekChild, h1] at h
    · by_cases h2 : fsName t = n
      · simp only [seekChild, h1, h2, if_neg, if_pos, if_true,
          lt_self_iff_false, if_false, Option.some.injEq] at h
        subst h
        simp [insAt, h1, h2, hu]
      · simp only [seekChild, h1, h2, if_neg, if_false] at h
        simp [insAt, h1, h2, ih h]

/-- Descending along a fully present chain with the identity is the
identity. -/
theorem chainPresent_digAt_id (p : List String) :
    ∀ body, chainPresent body p = true → digAt body p (fun x => x) = body := by
  induction p with
  | nil => intro body _; rfl
  | cons n p ih =>
    intro body h
    cases hs : seekChild body n with
    | none => simp [chainPresent, hs] at h
    | some t =>
      cases t with
      | file m c =>
        exact insAt_found_id n _ _ body (.file m c) hs rfl
      | dir m cs =>
        simp only [chainPresent, hs] at h
        refine insAt_found_id n _ _ body (.dir m cs) hs ?_
        simp [ih cs h]

/-- Where `seekChild` finds after an `insAt` of the same name. -/
theorem seekChild_insAt (n : String) (fresh : FSTree) (upd : FSTree → FSTree)
    (hfr : fsName fresh = n) (hupd : ∀ t, fsName t = n → fsName (upd t) = n) :
    ∀ body, seekChild (insAt n fresh upd body) n
      = some (match seekChild body n with
          | some t => upd t
          | none => fresh) := by
  intro body
  induction body with
  | nil =>
    simp [insAt, seekChild, hfr, lt_self_iff_false]
  | cons t ts ih =>
    by_cases h1 : n < fsName t
    · have hsk : seekChild (t :: ts) n = none := by simp [seekChild, h1]
      simp [insAt, seekChild, h1, hsk, hfr, lt_self_iff_false]
    · by_cases h2 : fsName t = n
      · have hn : fsName (upd t) = n := hupd t h2
        simp [insAt, seekChild, h1, h2, hn, lt_self_iff_false]
      · simp [insAt, seekChild, h1, h2, ih]

/-- `seekChild` after `updateChild` of the same name. -/
theorem seekChild_updateChild (body : List FSTree) (n : String)
    (f : List FSTree → List FSTree) :
    seekChild (updateChild body n f) n
      = some (match seekChild body n with
          | some (.dir m cs) => .dir m (f cs)
          | some (.file m c) => .file m c
          | none => .dir n (f [])) := by
  have h := seekChild_insAt n (.dir n (f []))
    (fun t => match t with
      | .dir m cs => .dir m (f cs)
      | .file m c => .file m c) rfl
    (fun t ht => by cases t <;> simpa using ht) body
  rw [show updateChild body n f = insAt n (.dir n (f []))
    (fun t => match t with
      | .dir m cs => .dir m (f cs)
      | .file m c => .file m c) body from rfl, h]
  cases hs : seekChild body n with
  | none => rfl
  | some t => cases t <;> rfl

/-- `seekChild` after `mkdirChild` of the same name. -/
theorem seekChild_mkdirChild (body : List FSTree) (n : String) :
    seekChild (mkdirChild body n) n
      = some (match seekChild body n with
          | some t => t
          | none => .dir n []) :=
  seekChild_insAt n (.dir n []) (fun t => t) rfl (fun _ ht => ht) body

/-- `seekChild` after `setFile` of the same name. -/
theorem seekChild_setFile (body : List FSTree) (n c : String) :
    seekChild (setFile body n c) n = some (.file n c) := by
  have h := seekChild_insAt n (.file n c) (fun _ => .file n c) rfl
    (fun _ _ => rfl) body
  rw [show setFile body n c
    = insAt n (.file n c) (fun _ => .file n c) body from rfl, h]
  cases seekChild body n <;> rfl

/-- Chain presence is preserved by descending along the chain. -/
theorem chainPresent_digAt (p : List String) :
    ∀ body f, chainPresent body p = true →
      chainPresent (digAt body p f) p = true := by
  induction p with
  | nil => intro body f _; rfl
  | cons n p ih =>
    intro body f h
    show chainPresent (updateChild body n (fun sub => digAt sub p f)) (n :: p) = true
    simp only [chainPresent, seekChild_updateChild body n (fun sub => digAt sub p f)]
    cases hs : seekChild body n with
    | none => simp [chainPresent, hs] at h
    | some t =>
      cases t with
      | file m c => rfl
      | dir m cs =>
        simp only [chainPresent, hs] at h
        exact ih cs f h

/-- Extracting an entry makes its own path chain present. -/
theorem chainPresent_insertPath (d : Bool) (c : String) :
    ∀ (p : List String), p ≠ [] → ∀ body,
      chainPresent (insertPath body p d c) p = true := by
  intro p
  induction p with
  | nil => intro h; exact absurd rfl h
  | cons n p ih =>
    intro _ body
    cases p with
    | nil =>
      cases d with
      | true =>
        show chainPresent (mkdirChild body n) [n] = true
        simp only [chainPresent, seekChild_mkdirChild body n]
        cases hs : seekChild body n with
        | none => rfl
        | some t => cases t <;> rfl
      | false =>
        show chainPresent (setFile body n c) [n] = true
        simp only [chainPresent, seekChild_setFile body n c]
    | cons n2 p2 =>
      show chainPresent
        (updateChild body n (fun sub => insertPath sub (n2 :: p2) d c))
        (n :: n2 :: p2) = true
      simp only [chainPresent,
        seekChild_updateChild body n (fun sub => insertPath sub (n2 :: p2) d c)]
      cases hs : seekChild body n with
      | none => exact ih (by simp) []
      | some t =>
        cases t with
        | file m c2 => rfl
        | dir m cs => exact ih (by simp) cs

/-- Two successive `updateChild`s at the same name compose. -/
theorem updateChild_updateChild (n : String) (f g : List FSTree → List FSTree) :
    ∀ body, updateChild (updateChild body n f) n g
      = updateChild body n (fun sub => g (f sub)) := by
  intro body
  induction body with
  | nil =>
    simp [updateChild, insAt, fsName, lt_self_iff_false]
  | cons t ts ih =>
    by_cases h1 : n < fsName t
    · have e1 : updateChild (t :: ts) n f = .dir n (f []) :: t :: ts := by
        simp [updateChild, insAt, h1]
      have e2 : updateChild (t :: ts) n (fun sub => g (f sub))
          = .dir n (g (f [])) :: t :: ts := by
        simp [updateChild, insAt, h1]
      rw [e1, e2]
      simp [updateChild, insAt, fsName, lt_self_iff_false]
    · by_cases h2 : fsName t = n
      · cases t with
        | file m c =>
          have e1 : updateChild (.file m c :: ts) n f = .file m c :: ts := by
            simp [updateChild, insAt, h1, h2]
          have e2 : updateChild (.file m c :: ts) n (fun sub => g (f sub))
              = .file m c :: ts := by
            simp [updateChild, insAt, h1, h2]
          rw [e1, e2]
          simp [updateChild, insAt, h1, h2]
        | dir m cs =>
          have e1 : updateChild (.dir m cs :: ts) n f = .dir m (f cs) :: ts := by
            simp [updateChild, insAt, h1, h2]
          have e2 : updateChild (.dir m cs :: ts) n (fun sub => g (f sub))
              = .dir m (g (f cs)) :: ts := by
            simp [updateChild, insAt, h1, h2]
          rw [e1, e2]
          have hm : fsName (FSTree.dir m (f cs)) = n := h2
          simp [updateChild, insAt, hm, lt_self_iff_false]
      · simp only [updateChild, insAt, h1, h2, if_neg, if_false] at ih ⊢
        simp only [List.cons.injEq, true_and]
        exact ih

/-- Creating the directory first does not change a subsequent
`updateChild`. -/
theorem updateChild_mkdirChild (n : String) (f : List FSTree → List FSTree) :
    ∀ body, updateChild (mkdirChild body n) n f = updateChild body n f := by
  intro body
  induction body with
  | nil =>
    simp [updateChild, mkdirChild, insAt, fsName, lt_self_iff_false]
  | cons t ts ih =>
    by_cases h1 : n < fsName t
    · have e1 : mkdirChild (t :: ts) n = .dir n [] :: t :: ts := by
        simp [mkdirChild, insAt, h1]
      have e2 : updateChild (t :: ts) n f = .dir n (f []) :: t :: ts := by
        simp [updateChild, insAt, h1]
      rw [e1, e2]
      simp [updateChild, insAt, fsName, lt_self_iff_false]
    · by_cases h2 : fsName t = n
      · have e1 : mkdirChild (t :: ts) n = t :: ts := by
          simp [mkdirChild, insAt, h1, h2]
        rw [e1]
      · simp only [updateChild, mkdirChild, insAt, h1, h2, if_neg, if_false] at ih ⊢
        simp only [List.cons.injEq, true_and]
        exact ih

/-- Descending along a concatenated path factors. -/
theorem digAt_append (b1 : List String) :
    ∀ (b2 : List String) (body : List FSTree) (f : List FSTree → List FSTree),
      digAt body (b1 ++ b2) f = digAt body b1 (fun sub => digAt sub b2 f) := by
  induction b1 with
  | nil => intro b2 body f; rfl
  | cons n b1 ih =>
    intro b2 body f
    show updateChild body n (fun sub => digAt sub (b1 ++ b2) f)
      = updateChild body n (fun sub => digAt sub b1 (fun s2 => digAt s2 b2 f))
    exact congrArg _ (funext fun sub => ih b2 sub f)

/-- Two descents along the same path compose. -/
theorem digAt_digAt (base : List String) :
    ∀ (body : List FSTree) (f g : List FSTree → List FSTree),
      digAt (digAt body base f) base g = digAt body base (fun sub => g (f sub)) := by
  induction base with
  | nil => intro body f g; rfl
  | cons n p ih =>
    intro body f g
    show updateChild (updateChild body n (fun sub => digAt sub p f)) n
        (fun sub => digAt sub p g)
      = updateChild body n (fun sub => digAt sub p (fun s2 => g (f s2)))
    rw [updateChild_updateChild]
    exact congrArg _ (funext fun sub => ih sub f g)

/-- Inserting at a path below `base` is a descent to `base` followed by the
relative insertion. -/
theorem insertPath_dig (d : Bool) (c : String) (p : List String) (hp : p ≠ []) :
    ∀ (base : List String) (body : List FSTree),
      insertPath body (base ++ p) d c
        = digAt body base (fun sub => insertPath sub p d c) := by
  intro base
  induction base with
  | nil => intro body; rfl
  | cons n base' ih =>
    intro body
    have hbp : base' ++ p ≠ [] := by
      intro hcon
      exact hp (List.append_eq_nil.mp hcon).2
    obtain ⟨x, rest, hx⟩ : ∃ x rest, base' ++ p = x :: rest := by
      cases hxx : base' ++ p with
      | nil => exact absurd hxx hbp
      | cons a b => exact ⟨a, b, rfl⟩
    calc insertPath body ((n :: base') ++ p) d c
        = updateChild body n (fun sub => insertPath sub (base' ++ p) d c) := by
          rw [List.cons_append, hx]
          rfl
      _ = updateChild body n
            (fun sub => digAt sub base' (fun s2 => insertPath s2 p d c)) :=
          congrArg _ (funext fun sub => ih sub)
      _ = digAt body (n :: base') (fun sub => insertPath sub p d c) := rfl

-- Extracting the walk entries of a tree (of a sibling list) equals
-- inserting the tree (the list) below the walk base.
mutual

theorem foldIns_walkZip (t : FSTree) : ∀ (base : List String) (body : List FSTree),
    List.foldl insStep body (walkZip base t) = digAt body base (insTree t) := by
  cases t with
  | file n c =>
    intro base body
    show insStep body ⟨base ++ [n], false, c⟩ = digAt body base (insTree (.file n c))
    rw [show insStep body ⟨base ++ [n], false, c⟩
      = insertPath body (base ++ [n]) false c from rfl]
    rw [insertPath_dig false c [n] (by simp) base body]
    rfl
  | dir n cs =>
    intro base body
    show List.foldl insStep (insStep body ⟨base ++ [n], true, ""⟩)
        (walkZipList (base ++ [n]) cs) = digAt body base (insTree (.dir n cs))
    have h1 : insStep body ⟨base ++ [n], true, ""⟩
        = digAt body base (fun sub => insertPath sub [n] true "") := by
      rw [show insStep body ⟨base ++ [n], true, ""⟩
        = insertPath body (base ++ [n]) true "" from rfl]
      rw [insertPath_dig true "" [n] (by simp) base body]
    have h2 : chainPresent
        (digAt body base (fun sub => insertPath sub [n] true "")) (base ++ [n])
        = true := by
      have h0 := chainPresent_insertPath true "" (base ++ [n]) (by simp) body
      rwa [insertPath_dig true "" [n] (by simp) base body] at h0
    rw [h1, foldIns_walkZipList cs (base ++ [n]) _ h2,
      digAt_append base [n], digAt_digAt base]
    refine congrArg _ (funext fun sub => ?_)
    show updateChild (mkdirChild sub n) n (insTreeList cs)
      = updateChild sub n (insTreeList cs)
    exact updateChild_mkdirChild n (insTreeList cs) sub

theorem foldIns_walkZipList (ts : List FSTree) :
    ∀ (base : List String) (body : List FSTree),
      chainPresent body base = true →
      List.foldl insStep body (walkZipList base ts)
        = digAt body base (insTreeList ts) := by
  cases ts with
  | nil =>
    intro base body h
    show body = digAt body base (insTreeList [])
    exact (chainPresent_digAt_id base body h).symm
  | cons t rest =>
    intro base body h
    show List.foldl insStep body (walkZip base t ++ walkZipList base rest) = _
    rw [List.foldl_append, foldIns_walkZip t base body,
      foldIns_walkZipList rest base _ (chainPresent_digAt base body (insTree t) h),
      digAt_digAt base]
    rfl

end

/-- Inserting a name above every existing name appends at the end. -/
theorem insAt_fresh (n : String) (fresh : FSTree) (upd : FSTree → FSTree) :
    ∀ body, (∀ u ∈ body, fsName u < n) →
      insAt n fresh upd body = body ++ [fresh] := by
  intro body
  induction body with
  | nil => intro _; rfl
  | cons t ts ih =>
    intro hb
    have ht : fsName t < n := hb t (by simp)
    have h1 : ¬ n < fsName t := lt_asymm ht
    have h2 : fsName t ≠ n := ne_of_lt ht
    simp [insAt, h1, h2]
    exact ih (fun u hu => hb u (by simp [hu]))

mutual

theorem insTree_fresh (t : FSTree) : ∀ body, WFt t →
    (∀ u ∈ body, fsName u < fsName t) → insTree t body = body ++ [t] := by
  cases t with
  | file n c =>
    intro body _ hb
    exact insAt_fresh n (.file n c) _ body hb
  | dir n cs =>
    intro body hwf hb
    show updateChild body n (fun sub => insTreeList cs sub) = body ++ [.dir n cs]
    rw [show updateChild body n (fun sub => insTreeList cs sub)
      = insAt n (.dir n (insTreeList cs []))
          (fun t => match t with
            | .dir m c2 => .dir m (insTreeList cs c2)
            | .file m c2 => .file m c2) body from rfl]
    rw [insAt_fresh n _ _ body hb]
    rw [insTreeList_fresh cs [] hwf (by simp)]
    simp

theorem insTreeList_fresh (ts : List FSTree) : ∀ body, WFl ts →
    (∀ u ∈ body, ∀ v ∈ ts, fsName u < fsName v) →
    insTreeList ts body = body ++ ts := by
  cases ts with
  | nil => intro body _ _; simp [insTreeList]
  | cons t rest =>
    intro body hwf hb
    show insTreeList rest (insTree t body) = body ++ t :: rest
    rw [insTree_fresh t body hwf.1 (fun u hu => hb u hu t (by simp))]
    rw [insTreeList_fresh rest (body ++ [t]) hwf.2.2 ?_]
    · simp
    · intro u hu v hv
      rcases List.mem_append.mp hu with hu' | hu'
      · exact hb u hu' v (by simp [hv])
      · rw [List.mem_singleton.mp hu']
        exact hwf.2.1 v hv

end

/-- Names appearing after an `insAt`. -/
theorem insAt_names (n : String) (fresh : FSTree) (upd : FSTree → FSTree)
    (hfr : fsName fresh = n) (hupd : ∀ t, fsName t = n → fsName (upd t) = n) :
    ∀ body u, u ∈ insAt n fresh upd body → fsName u = n ∨ u ∈ body := by
  intro body
  induction body with
  | nil =>
    intro u hu
    simp [insAt] at hu
    subst hu
    exact Or.inl hfr
  | cons t ts ih =>
    intro u hu
    by_cases h1 : n < fsName t
    · simp only [insAt, h1, if_pos, if_true, List.mem_cons] at hu
      rcases hu with rfl | hu
      · exact Or.inl hfr
      · exact Or.inr (by simpa using hu)
    · by_cases h2 : fsName t = n
      · have he : insAt n fresh upd (t :: ts) = upd t :: ts := by
          simp [insAt, h1, h2]
        rw [he] at hu
        rcases List.mem_cons.mp hu with rfl | hu
        · exact Or.inl (hupd t h2)
        · exact Or.inr (by simp [hu])
      · simp only [insAt, h1, h2, if_neg, if_false, List.mem_cons] at hu
        rcases hu with rfl | hu
        · exact Or.inr (by simp)
        · rcases ih u hu with hn | hm
          · exact Or.inl hn
          · exact Or.inr (by simp [hm])

/-- `insAt` preserves well-formedness when the inserted and updated nodes
are well-formed nodes of name `n`. -/
theorem insAt_WF (n : String) (fresh : FSTree) (upd : FSTree → FSTree)
    (hfr : fsName fresh = n) (hupd : ∀ t, fsName t = n → fsName (upd t) = n)
    (hwf : WFt fresh) (hupdwf : ∀ t, fsName t = n → WFt t → WFt (upd t)) :
    ∀ body, WFl body → WFl (insAt n fresh upd body) := by
  intro body
  induction body with
  | nil => intro _; exact ⟨hwf, by simp, trivial⟩
  | cons t ts ih =>
    intro hw
    obtain ⟨hwt, hbd, hwts⟩ := hw
    by_cases h1 : n < fsName t
    · have he : insAt n fresh upd (t :: ts) = fresh :: t :: ts := by
        simp [insAt, h1]
      rw [he]
      refine ⟨hwf, ?_, hwt, hbd, hwts⟩
      intro u hu
      rw [hfr]
      rcases List.mem_cons.mp hu with rfl | hu'
      · exact h1
      · exact lt_trans h1 (hbd u hu')
    · by_cases h2 : fsName t = n
      · have he : insAt n fresh upd (t :: ts) = upd t :: ts := by
          simp [insAt, h1, h2]
        rw [he]
        refine ⟨hupdwf t h2 hwt, ?_, hwts⟩
        intro u hu
        rw [hupd t h2, ← h2]
        exact hbd u hu
      · have he : insAt n fresh upd (t :: ts) = t :: insAt n fresh upd ts := by
          simp [insAt, h1, h2]
        rw [he]
        refine ⟨hwt, ?_, ih hwts⟩
        intro u hu
        rcases insAt_names n fresh upd hfr hupd ts u hu with hn | hmem
        · rw [hn]
          rcases lt_trichotomy n (fsName t) with hlt | heq | hgt
          · exact absurd hlt h1
          · exact absurd heq.symm h2
          · exact hgt
        · exact hbd u hmem

/-- Extracting an entry preserves well-formedness of the destination. -/
theorem insertPath_WF (d : Bool) (c : String) :
    ∀ (p : List String) (body : List FSTree), WFl body →
      WFl (insertPath body p d c) := by
  intro p
  induction p with
  | nil => intro body h; exact h
  | cons n p ih =>
    intro body h
    cases p with
    | nil =>
      cases d with
      | true =>
        exact insAt_WF n (.dir n []) (fun t => t) rfl (fun _ ht => ht)
          trivial (fun _ _ hw => hw) body h
      | false =>
        exact insAt_WF n (.file n c) (fun _ => .file n c) rfl (fun _ _ => rfl)
          trivial (fun _ _ _ => trivial) body h
    | cons n2 p2 =>
      show WFl (updateChild body n (fun sub => insertPath sub (n2 :: p2) d c))
      refine insAt_WF n (.dir n (insertPath [] (n2 :: p2) d c))
        (fun t => match t with
          | .dir m cs => .dir m (insertPath cs (n2 :: p2) d c)
          | .file m c2 => .file m c2) rfl ?_ ?_ ?_ body h
      · intro t ht
        cases t with
        | file m c2 => exact ht
        | dir m cs => exact ht
      · exact ih [] trivial
      · intro t ht hw
        cases t with
        | file m c2 => exact trivial
        | dir m cs => exact ih cs hw

/-- The destination of `unzip` is always well-formed. -/
theorem foldl_insStep_WF (a : List ZEntry) :
    ∀ body, WFl body → WFl (List.foldl insStep body a) := by
  induction a with
  | nil => intro body h; exact h
  | cons e rest ih =>
    intro body h
    exact ih _ (insertPath_WF e.isDir e.data e.path body h)

/-- `unzip` yields a well-formed tree. -/
theorem unzip_WF (a : List ZEntry) : WFl (unzip a) :=
  foldl_insStep_WF a [] trivial

/-- Compressing a well-formed extracted tree and extracting the result
reproduces the tree exactly. -/
theorem unzip_zipDirectory (body : List FSTree) (h : WFl body) :
    unzip (zipDirectory body) = body := by
  show List.foldl insStep [] (⟨[], true, ""⟩ :: walkZipList [] body) = body
  rw [List.foldl_cons, show insStep [] ⟨[], true, ""⟩ = [] from rfl,
    foldIns_walkZipList body [] [] rfl]
  show insTreeList body [] = body
  rw [insTreeList_fresh body [] h (by simp)]
  rfl

/-- C9: for every archive, `unzip` (Extract) followed by `zipDirectory`
(Compress) on the unmodified tree yields an archive whose extraction is
identical — paths, directory structure and file bytes — to the original
extraction. -/
theorem c9_extract_compress_roundtrip (a : List ZEntry) :
    unzip (zipDirectory (unzip a)) = unzip a :=
  unzip_zipDirectory (unzip a) (unzip_WF a)

end ResignModel
